import Mathlib

/-!
A shallow embedding of the recipe cost/nutrient summarizer in `src/main.ts`.

Amounts and prices are modelled as rationals (`ℚ`).  The external
collaborators (`ConvertUnits`, `GetNutrientFactInBaseUnits`,
`GetProductsForIngredient`) are parameters of the definitions: the core's
behaviour is proved for every implementation of those interfaces.
Exceptions become `Except` values, and the mutable nutrient map becomes an
insertion-ordered association list that is threaded explicitly.
-/

namespace Main

/-- Modelled from the spec: the unit-name enumeration of the external data
model (`models.ts` is not part of `src/`); §3 gives `unitName: enum` with
grams and millilitres as the canonical pivots. -/
inductive UoMName where
  | grams
  | kilogrammes
  | millilitres
  | litres
  | cups
  | teaspoons
  | tablespoons
  | whole
deriving DecidableEq, Repr

/-- Modelled from the spec: `unitType: enum{mass, volume, count, ...}` (§3). -/
inductive UoMType where
  | mass
  | volume
  | count
deriving DecidableEq, Repr

/-- A quantity with a unit, mirroring `UnitOfMeasure` as used by `main.ts`
(fields `uomAmount`, `uomName`, `uomType`). -/
structure UnitOfMeasure where
  uomAmount : ℚ
  uomName : UoMName
  uomType : UoMType
deriving DecidableEq, Repr

/-- A nutrient declaration: `quantityAmount` of nutrient per `quantityPer`
of product. -/
structure NutrientFact where
  nutrientName : String
  quantityAmount : UnitOfMeasure
  quantityPer : UnitOfMeasure
deriving DecidableEq, Repr

/-- A supplier's offer, mirroring the fields `main.ts` reads:
`supplierPrice` and `supplierProductUoM`. -/
structure SupplierProduct where
  supplierPrice : ℚ
  supplierProductUoM : UnitOfMeasure
deriving DecidableEq, Repr

/-- A product with its candidate suppliers and nutrient declarations. -/
structure Product where
  supplierProducts : List SupplierProduct
  nutrientFacts : List NutrientFact
deriving DecidableEq, Repr

/-- An ingredient identity. -/
structure Ingredient where
  ingredientName : String
deriving DecidableEq, Repr

/-- A recipe line item: an ingredient and the required quantity. -/
structure LineItem where
  ingredient : Ingredient
  unitOfMeasure : UnitOfMeasure
deriving DecidableEq, Repr

/-- A recipe. -/
structure Recipe where
  recipeName : String
  lineItems : List LineItem
deriving DecidableEq, Repr

/-- Errors of the conversion engine.  `tableMiss` is the error of the
external single-hop primitive; `unsupported` is the descriptive error thrown
at `main.ts:66` when no fallback pivot applies, carrying exactly the data
interpolated into its message: source type, source name, target type,
target name. -/
inductive ConvError where
  | tableMiss (fromName : UoMName) (fromType : UoMType) (toName : UoMName) (toType : UoMType)
  | unsupported (fromType : UoMType) (fromName : UoMName) (toType : UoMType) (toName : UoMName)
deriving DecidableEq, Repr

/-- The external single-hop conversion primitive `ConvertUnits`: given a
source quantity and a target unit name/type, it either succeeds with the
converted quantity or fails.  Implementations are arbitrary. -/
abbrev ConvertPrim := UnitOfMeasure → UoMName → UoMType → Option UnitOfMeasure

/-- Modelled from the spec: the external `ConvertUnits` "fails with a
conversion error when no direct table entry exists for the (from-unit,
to-unit) pair" (§6); its error names that pair. -/
def directHop (cu : ConvertPrim) (fromUoM : UnitOfMeasure) (toUoMName : UoMName)
    (toUoMType : UoMType) : Except ConvError UnitOfMeasure :=
  match cu fromUoM toUoMName toUoMType with
  | some r => .ok r
  | none => .error (.tableMiss fromUoM.uomName fromUoM.uomType toUoMName toUoMType)

/-- `handleVolumeToMassConversion` (`main.ts:78-88`): volume → ml → grams →
target mass unit, each hop via the direct primitive. -/
def handleVolumeToMassConversion (cu : ConvertPrim) (fromUoM : UnitOfMeasure)
    (toUoMName : UoMName) : Except ConvError UnitOfMeasure := do
  let volumeInMl ← directHop cu fromUoM .millilitres .volume
  let massInGrams ← directHop cu volumeInMl .grams .mass
  directHop cu massInGrams toUoMName .mass

/-- `handleMassToVolumeConversion` (`main.ts:96-110`): mass → grams → ml →
target volume unit. -/
def handleMassToVolumeConversion (cu : ConvertPrim) (fromUoM : UnitOfMeasure)
    (toUoMName : UoMName) : Except ConvError UnitOfMeasure := do
  let massInGrams ← directHop cu fromUoM .grams .mass
  let volumeInMl ← directHop cu massInGrams .millilitres .volume
  directHop cu volumeInMl toUoMName .volume

/-- `convertUnitsWithFallback` (`main.ts:47-70`): try the direct conversion;
on failure fall back to the volume⇄mass pivot paths, else throw the
descriptive unsupported-conversion error. -/
def convertUnitsWithFallback (cu : ConvertPrim) (fromUoM : UnitOfMeasure)
    (toUoMName : UoMName) (toUoMType : UoMType) : Except ConvError UnitOfMeasure :=
  match cu fromUoM toUoMName toUoMType with
  | some r => .ok r
  | none =>
    if fromUoM.uomType = .volume ∧ toUoMType = .mass then
      handleVolumeToMassConversion cu fromUoM toUoMName
    else if fromUoM.uomType = .mass ∧ toUoMType = .volume then
      handleMassToVolumeConversion cu fromUoM toUoMName
    else
      .error (.unsupported fromUoM.uomType fromUoM.uomName toUoMType toUoMName)

/-- Errors that escape the aggregation pipeline: a propagated conversion
error, or the no-supplier error thrown at `main.ts:156` carrying the
ingredient name. -/
inductive SummaryError where
  | conversion (e : ConvError)
  | noSupplierFound (ingredientName : String)
deriving DecidableEq, Repr

/-- `getNormalizedCost` (`main.ts:117-125`): price divided by the supplier
quantity converted to grams; a conversion failure propagates. -/
def getNormalizedCost (cu : ConvertPrim) (supplier : SupplierProduct) : Except ConvError ℚ :=
  (convertUnitsWithFallback cu supplier.supplierProductUoM .grams .mass).map
    (fun u => supplier.supplierPrice / u.uomAmount)

/-- The selection record built by `findCheapestSupplier`. -/
structure Selection where
  cost : ℚ
  product : Product
  supplier : SupplierProduct
deriving DecidableEq, Repr

/-- One iteration of the supplier loop in `findCheapestSupplier`
(`main.ts:146-152`): compute the normalized cost (propagating failure) and
keep the supplier when its cost is strictly below the current lowest
(`none` plays the initial `Infinity`). -/
def considerSupplier (cu : ConvertPrim) (product : Product) (sel : Option Selection)
    (supplier : SupplierProduct) : Except SummaryError (Option Selection) :=
  match getNormalizedCost cu supplier with
  | .error e => .error (.conversion e)
  | .ok normalizedCost =>
    match sel with
    | none => .ok (some ⟨normalizedCost, product, supplier⟩)
    | some s =>
      if normalizedCost < s.cost then .ok (some ⟨normalizedCost, product, supplier⟩)
      else .ok (some s)

/-- `findCheapestSupplier` (`main.ts:134-162`): scan every supplier of every
product keeping the strictly cheapest; throw the no-supplier error when
nothing was selected. -/
def findCheapestSupplier (cu : ConvertPrim) (ingredient : Ingredient)
    (availableProducts : List Product) : Except SummaryError Selection := do
  let sel ← availableProducts.foldlM
    (fun sel product => product.supplierProducts.foldlM (considerSupplier cu product) sel)
    none
  match sel with
  | some s => .ok s
  | none => .error (.noSupplierFound ingredient.ingredientName)

/-- The nutrient accumulator: a JS object keyed by nutrient name, modelled
as an insertion-ordered association list. -/
abbrev NutrientMap := List (String × NutrientFact)

/-- Lookup of `nutrientMap[name]`: first entry with the given key. -/
def lookupNutrient : NutrientMap → String → Option NutrientFact
  | [], _ => none
  | (k, v) :: rest, name => if k = name then some v else lookupNutrient rest name

/-- The in-place `+=` on `nutrientMap[name].quantityAmount.uomAmount`
(`main.ts:221-222`), applied to the first entry with the given key. -/
def addToNutrient : NutrientMap → String → ℚ → NutrientMap
  | [], _, _ => []
  | (k, v) :: rest, name, d =>
    if k = name then
      (k, { v with quantityAmount := { v.quantityAmount with
              uomAmount := v.quantityAmount.uomAmount + d } }) :: rest
    else
      (k, v) :: addToNutrient rest name d

/-- The zero-initialized entry inserted at `main.ts:193-201`. -/
def zeroEntry (baseFact : NutrientFact) : NutrientFact :=
  { nutrientName := baseFact.nutrientName
    quantityAmount :=
      { uomAmount := 0
        uomName := baseFact.quantityAmount.uomName
        uomType := baseFact.quantityAmount.uomType }
    quantityPer := baseFact.quantityPer }

/-- The external `GetNutrientFactInBaseUnits` collaborator. -/
abbrev BaseUnitsPrim := NutrientFact → NutrientFact

/-- The body of the nutrient-fact loop in `calculateNutrientContribution`
(`main.ts:188-223`): normalize the fact, zero-initialize its entry when
absent (appended, preserving insertion order), convert the required
quantity into the fact's per-unit, and add the normalized contribution. -/
def processFact (cu : ConvertPrim) (toBase : BaseUnitsPrim) (requiredUoM : UnitOfMeasure)
    (normalizedAmount : ℚ) (nutrientMap : NutrientMap) (nutrientFact : NutrientFact) :
    Except SummaryError NutrientMap :=
  let baseFact := toBase nutrientFact
  let initialized :=
    if (lookupNutrient nutrientMap baseFact.nutrientName).isSome then nutrientMap
    else nutrientMap ++ [(baseFact.nutrientName, zeroEntry baseFact)]
  match convertUnitsWithFallback cu requiredUoM baseFact.quantityPer.uomName
      baseFact.quantityPer.uomType with
  | .error e => .error (.conversion e)
  | .ok converted =>
    let ingredientAmountInBaseUnit := converted.uomAmount
    let nutrientPerBaseUnit :=
      baseFact.quantityAmount.uomAmount / baseFact.quantityPer.uomAmount
    let totalNutrientAmount := nutrientPerBaseUnit * ingredientAmountInBaseUnit
    let normalizedValue :=
      totalNutrientAmount / normalizedAmount * baseFact.quantityPer.uomAmount
    .ok (addToNutrient initialized baseFact.nutrientName normalizedValue)

/-- `calculateNutrientContribution` (`main.ts:171-226`): convert the
required quantity to grams, fold the nutrient-fact loop over the map, and
return the updated map with the line item's cost contribution. -/
def calculateNutrientContribution (cu : ConvertPrim) (toBase : BaseUnitsPrim)
    (requiredUoM : UnitOfMeasure) (selectedSupplier : Selection)
    (nutrientMap : NutrientMap) : Except SummaryError (NutrientMap × ℚ) :=
  match convertUnitsWithFallback cu requiredUoM .grams .mass with
  | .error e => .error (.conversion e)
  | .ok u =>
    let normalizedAmount := u.uomAmount
    (selectedSupplier.product.nutrientFacts.foldlM
        (processFact cu toBase requiredUoM normalizedAmount) nutrientMap).map
      (fun m => (m, normalizedAmount * selectedSupplier.cost))

/-- `sortNutrientsAlphabetically` (`main.ts:233-243`): re-insert the entries
following the sorted key list. -/
def sortNutrientsAlphabetically (nutrientMap : NutrientMap) : NutrientMap :=
  ((nutrientMap.map Prod.fst).insertionSort (· ≤ ·)).filterMap
    (fun k => (lookupNutrient nutrientMap k).map (fun v => (k, v)))

/-- The output record per recipe. -/
structure RecipeSummary where
  cheapestCost : ℚ
  nutrientsAtCheapestCost : NutrientMap
deriving DecidableEq, Repr

/-- The external `GetProductsForIngredient` collaborator. -/
abbrev FetchPrim := Ingredient → List Product

/-- The body of the line-item loop in `calculateRecipeSummary`
(`main.ts:274-292`): fetch candidates, select the cheapest supplier,
accumulate nutrients, and add the cost contribution. -/
def processLineItem (cu : ConvertPrim) (toBase : BaseUnitsPrim) (fetch : FetchPrim)
    (state : ℚ × NutrientMap) (lineItem : LineItem) : Except SummaryError (ℚ × NutrientMap) := do
  let availableProducts := fetch lineItem.ingredient
  let selectedSupplier ← findCheapestSupplier cu lineItem.ingredient availableProducts
  let (nutrientMap, ingredientCost) ←
    calculateNutrientContribution cu toBase lineItem.unitOfMeasure selectedSupplier state.2
  .ok (state.1 + ingredientCost, nutrientMap)

/-- One recipe's processing (`main.ts:269-301`): fresh accumulators, the
line-item loop, then the alphabetically ordered summary record. -/
def processRecipe (cu : ConvertPrim) (toBase : BaseUnitsPrim) (fetch : FetchPrim)
    (recipe : Recipe) : Except SummaryError RecipeSummary := do
  let (totalCost, nutrientMap) ←
    recipe.lineItems.foldlM (processLineItem cu toBase fetch) (0, [])
  .ok ⟨totalCost, sortNutrientsAlphabetically nutrientMap⟩

/-- The body of the recipe loop: process one recipe and key its summary by
recipe name. -/
def summaryStep (cu : ConvertPrim) (toBase : BaseUnitsPrim) (fetch : FetchPrim)
    (summary : List (String × RecipeSummary)) (recipe : Recipe) :
    Except SummaryError (List (String × RecipeSummary)) :=
  (processRecipe cu toBase fetch recipe).map
    (fun s => summary ++ [(recipe.recipeName, s)])

/-- `calculateRecipeSummary` (`main.ts:256-305`): process each recipe in
order, keying the summary by recipe name; a failure propagates and discards
the whole result. -/
def calculateRecipeSummary (cu : ConvertPrim) (toBase : BaseUnitsPrim) (fetch : FetchPrim)
    (recipes : List Recipe) : Except SummaryError (List (String × RecipeSummary)) :=
  recipes.foldlM (summaryStep cu toBase fetch) []

/-! Helper observations used to state the claims. -/

/-- The unit names a conversion error mentions. -/
def mentionsName (e : ConvError) (n : UoMName) : Bool :=
  match e with
  | .tableMiss a _ c _ => n = a ∨ n = c
  | .unsupported _ b _ d => n = b ∨ n = d

/-- The flattened supplier iteration order of `findCheapestSupplier`:
products in list order, suppliers within a product in list order. -/
def supplierEntries (availableProducts : List Product) : List (Product × SupplierProduct) :=
  availableProducts.flatMap (fun p => p.supplierProducts.map (fun s => (p, s)))

/-- The normalized cost as a pure value (`0` when the computation fails);
used only to analyse runs in which every computation succeeds. -/
def costValue (cu : ConvertPrim) (s : SupplierProduct) : ℚ :=
  ((getNormalizedCost cu s).toOption).getD 0

/-- The pure selection step matching `considerSupplier` on runs where every
cost computation succeeds. -/
def selectStep (cu : ConvertPrim) (sel : Option Selection) (e : Product × SupplierProduct) :
    Option Selection :=
  match sel with
  | none => some ⟨costValue cu e.2, e.1, e.2⟩
  | some t =>
    if costValue cu e.2 < t.cost then some ⟨costValue cu e.2, e.1, e.2⟩ else some t

/-- The accumulated amount stored for a nutrient name (`0` when absent). -/
def nutrientAmount (m : NutrientMap) (name : String) : ℚ :=
  ((lookupNutrient m name).map (fun f => f.quantityAmount.uomAmount)).getD 0

/-- The key sequence of a nutrient map, in iteration order. -/
def nutrientKeys (m : NutrientMap) : List String :=
  m.map Prod.fst

/-! Concrete fixtures used by witnesses and counterexamples. -/

/-- A conversion table that only knows the identity conversion
grams → grams on masses. -/
def cuGrams : ConvertPrim := fun f n t =>
  if f.uomName = .grams ∧ f.uomType = .mass ∧ n = .grams ∧ t = .mass then some f else none

/-- A conversion table with cups → millilitres, millilitres → grams and the
gram identity, but no direct cups → grams entry. -/
def cuCups : ConvertPrim := fun f n t =>
  match f.uomName, n, t with
  | .cups, .millilitres, .volume => some ⟨f.uomAmount * 240, .millilitres, .volume⟩
  | .millilitres, .grams, .mass => some ⟨f.uomAmount, .grams, .mass⟩
  | .grams, .grams, .mass => if f.uomType = .mass then some f else none
  | _, _, _ => none

/-- A conversion table that only knows cups → millilitres, so the second
fallback hop (millilitres → grams) fails. -/
def cuHop1 : ConvertPrim := fun f n _ =>
  match f.uomName, n with
  | .cups, .millilitres => some ⟨f.uomAmount, .millilitres, .volume⟩
  | _, _ => none

/-- The empty conversion table: every direct conversion fails. -/
def cuNone : ConvertPrim := fun _ _ _ => none

/-- The end-to-end scenario's supplier: $2.00 per 1000 g. -/
def supplier1000 : SupplierProduct := ⟨2, ⟨1000, .grams, .mass⟩⟩

/-- A supplier quoted in count units, whose cost normalization fails on any
table without a count → mass path. -/
def supplierCount : SupplierProduct := ⟨1, ⟨1, .whole, .count⟩⟩

/-- The end-to-end scenario's nutrient fact: 10 g protein per 100 g. -/
def factProtein : NutrientFact := ⟨"Protein", ⟨10, .grams, .mass⟩, ⟨100, .grams, .mass⟩⟩

/-- A zinc fact, 1 g per 100 g. -/
def factZinc : NutrientFact := ⟨"Zinc", ⟨1, .grams, .mass⟩, ⟨100, .grams, .mass⟩⟩

/-- An iron fact, 2 g per 100 g. -/
def factIron : NutrientFact := ⟨"Iron", ⟨2, .grams, .mass⟩, ⟨100, .grams, .mass⟩⟩

/-- The end-to-end scenario's single candidate product. -/
def productE2E : Product := ⟨[supplier1000], [factProtein]⟩

/-- The end-to-end scenario's recipe: one line item requiring 500 g. -/
def recipeE2E : Recipe := ⟨"R", [⟨⟨"Ing"⟩, ⟨500, .grams, .mass⟩⟩]⟩

/-- A product whose facts arrive in the order Zinc, Protein, Iron. -/
def productZPI : Product := ⟨[supplier1000], [factZinc, factProtein, factIron]⟩

/-- A recipe used to exercise the alphabetical re-ordering. -/
def recipeZPI : Recipe := ⟨"R8", [⟨⟨"Ing"⟩, ⟨500, .grams, .mass⟩⟩]⟩

/-- Three gram-quoted suppliers with normalized costs 3/1000, 2/1000 and
2/1000: the cheapest cost is attained twice, first by the middle one. -/
def productTie : Product :=
  ⟨[⟨3, ⟨1000, .grams, .mass⟩⟩, ⟨1, ⟨500, .grams, .mass⟩⟩, ⟨2, ⟨1000, .grams, .mass⟩⟩], []⟩

/-- The candidate fetcher of the end-to-end scenario. -/
def fetchE2E : FetchPrim := fun _ => [productE2E]

/-- The Protein entry the end-to-end run actually produces: the code's
normalization re-expresses the 50 g yield per 100 g of the 500 g line item,
giving 10. -/
def proteinOut : NutrientFact := ⟨"Protein", ⟨10, .grams, .mass⟩, ⟨100, .grams, .mass⟩⟩

/-- The summary the end-to-end run actually produces. -/
def summaryE2E : RecipeSummary := ⟨1, [("Protein", proteinOut)]⟩

/-- The candidate fetcher of the ordering scenario. -/
def fetchZPI : FetchPrim := fun _ => [productZPI]

/-- The summary the ordering scenario produces: keys re-inserted in
ascending alphabetical order. -/
def summaryZPI : RecipeSummary :=
  ⟨1, [("Iron", ⟨"Iron", ⟨2, .grams, .mass⟩, ⟨100, .grams, .mass⟩⟩),
       ("Protein", proteinOut),
       ("Zinc", ⟨"Zinc", ⟨1, .grams, .mass⟩, ⟨100, .grams, .mass⟩⟩)]⟩

/-- C2: for every source unit of measure and target unit name/type, the
conversion with fallback first attempts the direct single-hop conversion
and returns its result verbatim when it succeeds; when the direct attempt
fails and the source is volume-typed and the target mass-typed, it returns
the composition of three direct hops source → millilitres → grams → target,
and symmetrically mass → grams → millilitres → target. -/
theorem convertUnitsWithFallback_paths (cu : ConvertPrim) (fromUoM : UnitOfMeasure)
    (toUoMName : UoMName) (toUoMType : UoMType) :
    (∀ r, cu fromUoM toUoMName toUoMType = some r →
      convertUnitsWithFallback cu fromUoM toUoMName toUoMType = .ok r) ∧
    (cu fromUoM toUoMName toUoMType = none → fromUoM.uomType = .volume → toUoMType = .mass →
      convertUnitsWithFallback cu fromUoM toUoMName toUoMType =
        (directHop cu fromUoM .millilitres .volume).bind
          (fun v => (directHop cu v .grams .mass).bind
            (fun g => directHop cu g toUoMName .mass))) ∧
    (cu fromUoM toUoMName toUoMType = none → fromUoM.uomType = .mass → toUoMType = .volume →
      convertUnitsWithFallback cu fromUoM toUoMName toUoMType =
        (directHop cu fromUoM .grams .mass).bind
          (fun g => (directHop cu g .millilitres .volume).bind
            (fun v => directHop cu v toUoMName .volume))) := by
  refine ⟨fun r hr => ?_, fun hd hv hm => ?_, fun hd hm hv => ?_⟩
  · simp [convertUnitsWithFallback, hr]
  · subst hm
    simp [convertUnitsWithFallback, hd, hv, handleVolumeToMassConversion, Bind.bind]
  · subst hv
    simp [convertUnitsWithFallback, hd, hm, handleMassToVolumeConversion, Bind.bind]

/-- Witness for C2: on a table without a direct cups → grams entry the
result is the three-hop composition; direct successes return verbatim; the
symmetric mass → volume path also takes the three hops. -/
theorem convertUnitsWithFallback_paths_witness :
    convertUnitsWithFallback cuCups ⟨3, .cups, .volume⟩ .grams .mass =
      (directHop cuCups ⟨3, .cups, .volume⟩ .millilitres .volume).bind
        (fun v => (directHop cuCups v .grams .mass).bind
          (fun g => directHop cuCups g .grams .mass)) ∧
    convertUnitsWithFallback cuGrams ⟨7, .grams, .mass⟩ .grams .mass = .ok ⟨7, .grams, .mass⟩ ∧
    convertUnitsWithFallback cuCups ⟨5, .grams, .mass⟩ .millilitres .volume =
      (directHop cuCups ⟨5, .grams, .mass⟩ .grams .mass).bind
        (fun g => (directHop cuCups g .millilitres .volume).bind
          (fun v => directHop cuCups v .millilitres .volume)) :=
  ⟨(convertUnitsWithFallback_paths cuCups ⟨3, .cups, .volume⟩ .grams .mass).2.1 rfl rfl rfl,
   (convertUnitsWithFallback_paths cuGrams ⟨7, .grams, .mass⟩ .grams .mass).1 _ rfl,
   (convertUnitsWithFallback_paths cuCups ⟨5, .grams, .mass⟩ .millilitres .volume).2.2
      rfl rfl rfl⟩

/-- C7: the normalized cost of a supplier is its price divided by the
amount obtained converting the supplier's unit of measure to grams with
fallback, and a conversion failure propagates unchanged. -/
theorem getNormalizedCost_spec (cu : ConvertPrim) (s : SupplierProduct) :
    (∀ u, convertUnitsWithFallback cu s.supplierProductUoM .grams .mass = .ok u →
      getNormalizedCost cu s = .ok (s.supplierPrice / u.uomAmount)) ∧
    (∀ e, convertUnitsWithFallback cu s.supplierProductUoM .grams .mass = .error e →
      getNormalizedCost cu s = .error e) := by
  constructor <;> intro x hx <;> simp [getNormalizedCost, hx, Except.map]

/-- Witness for C7: the $2.00-per-1000 g supplier normalizes to 2/1000 per
gram, and a supplier quoted in counts propagates its conversion error. -/
theorem getNormalizedCost_spec_witness :
    getNormalizedCost cuGrams supplier1000 = .ok (2 / 1000) ∧
    getNormalizedCost cuNone supplierCount =
      .error (.unsupported .count .whole .mass .grams) :=
  ⟨(getNormalizedCost_spec cuGrams supplier1000).1 ⟨1000, .grams, .mass⟩ rfl,
   (getNormalizedCost_spec cuNone supplierCount).2 _ rfl⟩

/-- Counterexample for C4: on a table knowing only cups → millilitres, the
request cups → kilogrammes takes the volume → mass fallback and fails at
the millilitres → grams hop; the propagated error names the hop's pair and
mentions neither the request's source unit (cups) nor its target unit
(kilogrammes). -/
theorem hopFailure_error_counterexample :
    convertUnitsWithFallback cuHop1 ⟨1, .cups, .volume⟩ .kilogrammes .mass =
      .error (.tableMiss .millilitres .volume .grams .mass) ∧
    mentionsName (.tableMiss .millilitres .volume .grams .mass) .cups = false ∧
    mentionsName (.tableMiss .millilitres .volume .grams .mass) .kilogrammes = false :=
  ⟨rfl, rfl, rfl⟩

/-- C4 (amended): when the direct attempt fails and no fallback pattern
applies, the conversion fails with the descriptive error naming the
request's source unit/kind and target unit/kind; when a required
intermediate hop of the fallback fails, the conversion fails with that
hop's conversion error, naming the hop's own source and target
unit/kind. -/
theorem convertUnitsWithFallback_failure_errors (cu : ConvertPrim) (fromUoM : UnitOfMeasure)
    (toUoMName : UoMName) (toUoMType : UoMType)
    (hdirect : cu fromUoM toUoMName toUoMType = none) :
    (¬(fromUoM.uomType = .volume ∧ toUoMType = .mass) →
     ¬(fromUoM.uomType = .mass ∧ toUoMType = .volume) →
      convertUnitsWithFallback cu fromUoM toUoMName toUoMType =
        .error (.unsupported fromUoM.uomType fromUoM.uomName toUoMType toUoMName)) ∧
    (fromUoM.uomType = .volume → toUoMType = .mass →
      (cu fromUoM .millilitres .volume = none →
        convertUnitsWithFallback cu fromUoM toUoMName toUoMType =
          .error (.tableMiss fromUoM.uomName fromUoM.uomType .millilitres .volume)) ∧
      (∀ v, cu fromUoM .millilitres .volume = some v → cu v .grams .mass = none →
        convertUnitsWithFallback cu fromUoM toUoMName toUoMType =
          .error (.tableMiss v.uomName v.uomType .grams .mass)) ∧
      (∀ v g, cu fromUoM .millilitres .volume = some v → cu v .grams .mass = some g →
        cu g toUoMName .mass = none →
        convertUnitsWithFallback cu fromUoM toUoMName toUoMType =
          .error (.tableMiss g.uomName g.uomType toUoMName .mass))) ∧
    (fromUoM.uomType = .mass → toUoMType = .volume →
      (cu fromUoM .grams .mass = none →
        convertUnitsWithFallback cu fromUoM toUoMName toUoMType =
          .error (.tableMiss fromUoM.uomName fromUoM.uomType .grams .mass)) ∧
      (∀ g, cu fromUoM .grams .mass = some g → cu g .millilitres .volume = none →
        convertUnitsWithFallback cu fromUoM toUoMName toUoMType =
          .error (.tableMiss g.uomName g.uomType .millilitres .volume)) ∧
      (∀ g v, cu fromUoM .grams .mass = some g → cu g .millilitres .volume = some v →
        cu v toUoMName .volume = none →
        convertUnitsWithFallback cu fromUoM toUoMName toUoMType =
          .error (.tableMiss v.uomName v.uomType toUoMName .volume))) := by
  refine ⟨fun h1 h2 => ?_,
    fun hv hm => ⟨fun h => ?_, fun v h1 h2 => ?_, fun v g h1 h2 h3 => ?_⟩,
    fun hm hv => ⟨fun h => ?_, fun g h1 h2 => ?_, fun g v h1 h2 h3 => ?_⟩⟩
  · simp only [convertUnitsWithFallback, hdirect]
    rw [if_neg h1, if_neg h2]
  · subst hm
    simp only [convertUnitsWithFallback, hdirect]
    rw [if_pos ⟨hv, trivial⟩]
    simp [handleVolumeToMassConversion, directHop, h, hv, Bind.bind, Except.bind]
  · subst hm
    simp only [convertUnitsWithFallback, hdirect]
    rw [if_pos ⟨hv, trivial⟩]
    simp [handleVolumeToMassConversion, directHop, h1, h2, hv, Bind.bind, Except.bind]
  · subst hm
    simp only [convertUnitsWithFallback, hdirect]
    rw [if_pos ⟨hv, trivial⟩]
    simp [handleVolumeToMassConversion, directHop, h1, h2, h3, hv, Bind.bind, Except.bind]
  · subst hv
    simp only [convertUnitsWithFallback, hdirect]
    rw [if_neg (by simp), if_pos ⟨hm, trivial⟩]
    simp [handleMassToVolumeConversion, directHop, h, hm, Bind.bind, Except.bind]
  · subst hv
    simp only [convertUnitsWithFallback, hdirect]
    rw [if_neg (by simp), if_pos ⟨hm, trivial⟩]
    simp [handleMassToVolumeConversion, directHop, h1, h2, hm, Bind.bind, Except.bind]
  · subst hv
    simp only [convertUnitsWithFallback, hdirect]
    rw [if_neg (by simp), if_pos ⟨hm, trivial⟩]
    simp [handleMassToVolumeConversion, directHop, h1, h2, h3, hm, Bind.bind, Except.bind]

/-- Witness for C4 (amended): the count → mass request hits the descriptive
unsupported-conversion error; the cups → kilogrammes request fails with the
millilitres → grams hop's own table-miss error. -/
theorem convertUnitsWithFallback_failure_errors_witness :
    convertUnitsWithFallback cuNone ⟨1, .whole, .count⟩ .grams .mass =
      .error (.unsupported .count .whole .mass .grams) ∧
    convertUnitsWithFallback cuHop1 ⟨2, .cups, .volume⟩ .kilogrammes .mass =
      .error (.tableMiss .millilitres .volume .grams .mass) :=
  ⟨(convertUnitsWithFallback_failure_errors cuNone ⟨1, .whole, .count⟩ .grams .mass rfl).1
      (by decide) (by decide),
   ((convertUnitsWithFallback_failure_errors cuHop1 ⟨2, .cups, .volume⟩ .kilogrammes .mass
      rfl).2.1 rfl rfl).2.1 ⟨2, .millilitres, .volume⟩ rfl rfl⟩

/-- The nested product/supplier fold of `findCheapestSupplier` equals the
fold over the flattened iteration order. -/
theorem foldlM_supplier_flatten (cu : ConvertPrim) (prods : List Product)
    (sel : Option Selection) :
    prods.foldlM
      (fun sel product => product.supplierProducts.foldlM (considerSupplier cu product) sel)
      sel =
    (supplierEntries prods).foldlM
      (fun sel e => considerSupplier cu e.1 sel e.2) sel := by
  induction prods generalizing sel with
  | nil => rfl
  | cons p rest ih =>
    simp only [supplierEntries, List.flatMap_cons, List.foldlM_append, List.foldlM_map,
      List.foldlM_cons]
    simp only [supplierEntries] at ih
    simp only [ih]

/-- A single selection step never produces the no-supplier error. -/
theorem considerSupplier_error_conversion (cu : ConvertPrim) (p : Product)
    (sel : Option Selection) (s : SupplierProduct) (err : SummaryError)
    (h : considerSupplier cu p sel s = .error err) : ∃ e, err = .conversion e := by
  unfold considerSupplier at h
  cases hc : getNormalizedCost cu s with
  | error e =>
    rw [hc] at h
    exact ⟨e, by cases h; rfl⟩
  | ok c =>
    rw [hc] at h
    cases sel with
    | none => cases h
    | some t =>
      by_cases hlt : c < t.cost <;> simp [hlt] at h

/-- Every error of the flattened supplier fold is a conversion error. -/
theorem supplierFold_error_conversion (cu : ConvertPrim)
    (l : List (Product × SupplierProduct)) (sel : Option Selection) (err : SummaryError)
    (h : l.foldlM (fun sel e => considerSupplier cu e.1 sel e.2) sel = .error err) :
    ∃ e, err = .conversion e := by
  induction l generalizing sel with
  | nil => cases h
  | cons a rest ih =>
    rw [List.foldlM_cons] at h
    cases hc : considerSupplier cu a.1 sel a.2 with
    | error e =>
      rw [hc] at h
      cases h
      exact considerSupplier_error_conversion cu a.1 sel a.2 err hc
    | ok sel' =>
      rw [hc] at h
      exact ih sel' h

/-- A selection step starting from an existing selection keeps one. -/
theorem considerSupplier_some (cu : ConvertPrim) (p : Product) (t : Selection)
    (s : SupplierProduct) (r : Option Selection)
    (h : considerSupplier cu p (some t) s = .ok r) : r.isSome = true := by
  unfold considerSupplier at h
  cases hc : getNormalizedCost cu s with
  | error e => rw [hc] at h; cases h
  | ok c =>
    rw [hc] at h
    by_cases hlt : c < t.cost <;> simp [hlt] at h <;> simp [← h]

/-- The flattened fold keeps an existing selection. -/
theorem supplierFold_some (cu : ConvertPrim) (l : List (Product × SupplierProduct))
    (t : Selection) (r : Option Selection)
    (h : l.foldlM (fun sel e => considerSupplier cu e.1 sel e.2) (some t) = .ok r) :
    r.isSome = true := by
  induction l generalizing t with
  | nil =>
    cases h
    rfl
  | cons a rest ih =>
    rw [List.foldlM_cons] at h
    cases hc : considerSupplier cu a.1 (some t) a.2 with
    | error e => rw [hc] at h; cases h
    | ok sel' =>
      rw [hc] at h
      obtain ⟨t', rfl⟩ := Option.isSome_iff_exists.mp (considerSupplier_some cu a.1 t a.2 sel' hc)
      exact ih t' h

/-- When the flattened fold starts empty-handed and ends empty-handed
without an error, there were no suppliers at all. -/
theorem supplierFold_none_ok (cu : ConvertPrim) (l : List (Product × SupplierProduct))
    (h : l.foldlM (fun sel e => considerSupplier cu e.1 sel e.2) none = .ok none) :
    l = [] := by
  cases l with
  | nil => rfl
  | cons a rest =>
    rw [List.foldlM_cons] at h
    cases hc : considerSupplier cu a.1 none a.2 with
    | error e => rw [hc] at h; cases h
    | ok sel' =>
      rw [hc] at h
      have hsome : sel'.isSome = true := by
        unfold considerSupplier at hc
        cases hgc : getNormalizedCost cu a.2 with
        | error e => rw [hgc] at hc; cases hc
        | ok c => rw [hgc] at hc; cases hc; rfl
      obtain ⟨t', rfl⟩ := Option.isSome_iff_exists.mp hsome
      have := supplierFold_some cu rest t' none h
      cases this

/-- Counterexample for C3: a candidate list with one supplier whose cost
computation fails makes the selection fail with the supplier's conversion
error, not with the no-supplier error naming the ingredient. -/
theorem findCheapestSupplier_propagates_counterexample :
    findCheapestSupplier cuNone ⟨"Ing"⟩ [⟨[supplierCount], []⟩] =
      .error (.conversion (.unsupported .count .whole .mass .grams)) ∧
    SummaryError.conversion (.unsupported .count .whole .mass .grams) ≠
      .noSupplierFound "Ing" :=
  ⟨rfl, by decide⟩

/-- C3 (amended): the selection raises the no-supplier error naming the
ingredient exactly when the candidate list contains no supplier entries at
all; when a supplier's cost computation fails, the selection fails with
that conversion error instead, and those are the only two error shapes. -/
theorem findCheapestSupplier_noSupplier_iff (cu : ConvertPrim) (ingredient : Ingredient)
    (prods : List Product) :
    (findCheapestSupplier cu ingredient prods =
        .error (.noSupplierFound ingredient.ingredientName) ↔
      ∀ p ∈ prods, p.supplierProducts = []) ∧
    (∀ err, findCheapestSupplier cu ingredient prods = .error err →
      err = .noSupplierFound ingredient.ingredientName ∨ ∃ e, err = .conversion e) := by
  have hentries : supplierEntries prods = [] ↔ ∀ p ∈ prods, p.supplierProducts = [] := by
    simp [supplierEntries, List.flatMap_eq_nil_iff]
  unfold findCheapestSupplier
  rw [foldlM_supplier_flatten]
  cases hfold : (supplierEntries prods).foldlM
      (fun sel e => considerSupplier cu e.1 sel e.2) none with
  | error err =>
    obtain ⟨e, rfl⟩ := supplierFold_error_conversion cu _ none err hfold
    constructor
    · constructor
      · intro h
        cases h
      · intro hall
        rw [hentries.mpr hall] at hfold
        cases hfold
    · intro err' h
      cases h
      exact .inr ⟨e, rfl⟩
  | ok sel =>
    cases sel with
    | none =>
      have hnil := supplierFold_none_ok cu _ hfold
      constructor
      · constructor
        · intro _
          exact hentries.mp hnil
        · intro _
          rfl
      · intro err' h
        simp only [Bind.bind, Except.bind] at h
        cases h
        exact .inl rfl
    | some t =>
      constructor
      · constructor
        · intro h
          cases h
        · intro hall
          rw [hentries.mpr hall] at hfold
          cases hfold
      · intro err' h
        cases h

/-- Witness for C3 (amended): with no suppliers at all the no-supplier
error names the ingredient, and with a failing supplier present the
selection propagates that conversion error. -/
theorem findCheapestSupplier_noSupplier_iff_witness :
    findCheapestSupplier cuGrams ⟨"Ing"⟩ [⟨[], []⟩] =
      .error (.noSupplierFound "Ing") ∧
    (SummaryError.conversion (.unsupported .count .whole .mass .grams) =
        .noSupplierFound "Ing" ∨
      ∃ e, SummaryError.conversion (.unsupported .count .whole .mass .grams) =
        .conversion e) :=
  ⟨(findCheapestSupplier_noSupplier_iff cuGrams ⟨"Ing"⟩ [⟨[], []⟩]).1.mpr
      (by decide),
   (findCheapestSupplier_noSupplier_iff cuNone ⟨"Ing"⟩ [⟨[supplierCount], []⟩]).2
      (.conversion (.unsupported .count .whole .mass .grams)) rfl⟩

/-- A successful normalized-cost computation returns its `costValue`. -/
theorem getNormalizedCost_isOk (cu : ConvertPrim) (s : SupplierProduct)
    (h : (getNormalizedCost cu s).isOk = true) :
    getNormalizedCost cu s = .ok (costValue cu s) := by
  cases hc : getNormalizedCost cu s with
  | ok c => simp [costValue, hc, Except.toOption]
  | error e => rw [hc] at h; cases h

/-- A successful normalized-cost value is its `costValue`. -/
theorem costValue_eq_of_ok (cu : ConvertPrim) (s : SupplierProduct) (c : ℚ)
    (h : getNormalizedCost cu s = .ok c) : costValue cu s = c := by
  simp [costValue, h, Except.toOption]

/-- On runs where every cost computation succeeds, the monadic supplier fold
is the pure fold of `selectStep`. -/
theorem supplierFold_allOk (cu : ConvertPrim) (l : List (Product × SupplierProduct))
    (sel : Option Selection)
    (hok : ∀ e ∈ l, (getNormalizedCost cu e.2).isOk = true) :
    l.foldlM (fun sel e => considerSupplier cu e.1 sel e.2) sel =
      .ok (l.foldl (selectStep cu) sel) := by
  induction l generalizing sel with
  | nil => rfl
  | cons a rest ih =>
    rw [List.foldlM_cons, List.foldl_cons]
    have ha := getNormalizedCost_isOk cu a.2 (hok a (by simp))
    have hstep : considerSupplier cu a.1 sel a.2 = .ok (selectStep cu sel a) := by
      unfold considerSupplier selectStep
      rw [ha]
      cases sel with
      | none => rfl
      | some t => by_cases h : costValue cu a.2 < t.cost <;> simp [h]
    rw [hstep]
    exact ih _ (fun e he => hok e (by simp [he]))

/-- The pure selection fold starting from a selection: the result is either
the start (at most as expensive as every scanned entry) or the first
scanned entry attaining the minimum, strictly cheaper than the start and
than every entry scanned before it. -/
theorem selectStep_foldl_some (cu : ConvertPrim) (l : List (Product × SupplierProduct))
    (t₀ : Selection) :
    ∃ t, l.foldl (selectStep cu) (some t₀) = some t ∧
      ((t = t₀ ∧ ∀ e ∈ l, t₀.cost ≤ costValue cu e.2) ∨
       (∃ (i : ℕ) (e : Product × SupplierProduct), l[i]? = some e ∧
         t = ⟨costValue cu e.2, e.1, e.2⟩ ∧ t.cost < t₀.cost ∧
         (∀ e' ∈ l, t.cost ≤ costValue cu e'.2) ∧
         (∀ (j : ℕ) (e' : Product × SupplierProduct), j < i → l[j]? = some e' →
           t.cost < costValue cu e'.2))) := by
  induction l generalizing t₀ with
  | nil => exact ⟨t₀, rfl, .inl ⟨rfl, by simp⟩⟩
  | cons a rest ih =>
    rw [List.foldl_cons]
    by_cases hlt : costValue cu a.2 < t₀.cost
    · rw [show selectStep cu (some t₀) a = some ⟨costValue cu a.2, a.1, a.2⟩ from by
        simp [selectStep, hlt]]
      obtain ⟨t, hfold, hcase⟩ := ih ⟨costValue cu a.2, a.1, a.2⟩
      refine ⟨t, hfold, .inr ?_⟩
      rcases hcase with ⟨rfl, hmin⟩ | ⟨i, e, hi, hte, hlt', hmin, hearlier⟩
      · refine ⟨0, a, by simp, rfl, hlt, ?_, ?_⟩
        · intro e' he'
          rcases List.mem_cons.mp he' with rfl | he'
          · exact le_refl _
          · exact hmin e' he'
        · intro j e' hj _
          exact absurd hj (Nat.not_lt_zero j)
      · refine ⟨i + 1, e, by rw [List.getElem?_cons_succ]; exact hi, hte, lt_trans hlt' hlt, ?_, ?_⟩
        · intro e' he'
          rcases List.mem_cons.mp he' with rfl | he'
          · exact le_of_lt hlt'
          · exact hmin e' he'
        · intro j e' hj hj'
          cases j with
          | zero =>
            have : e' = a := by simpa using hj'.symm
            subst this
            exact hlt'
          | succ j' =>
            exact hearlier j' e' (Nat.lt_of_succ_lt_succ hj) (by simpa using hj')
    · rw [show selectStep cu (some t₀) a = some t₀ from by simp [selectStep, hlt]]
      obtain ⟨t, hfold, hcase⟩ := ih t₀
      have hle : t₀.cost ≤ costValue cu a.2 := le_of_not_lt hlt
      refine ⟨t, hfold, ?_⟩
      rcases hcase with ⟨rfl, hmin⟩ | ⟨i, e, hi, hte, hlt', hmin, hearlier⟩
      · refine .inl ⟨rfl, fun e' he' => ?_⟩
        rcases List.mem_cons.mp he' with rfl | he'
        · exact hle
        · exact hmin e' he'
      · refine .inr ⟨i + 1, e, by rw [List.getElem?_cons_succ]; exact hi, hte, hlt', ?_, ?_⟩
        · intro e' he'
          rcases List.mem_cons.mp he' with rfl | he'
          · exact le_of_lt (lt_of_lt_of_le hlt' hle)
          · exact hmin e' he'
        · intro j e' hj hj'
          cases j with
          | zero =>
            have : e' = a := by simpa using hj'.symm
            subst this
            exact lt_of_lt_of_le hlt' hle
          | succ j' =>
            exact hearlier j' e' (Nat.lt_of_succ_lt_succ hj) (by simpa using hj')

/-- Counterexample for C6: the candidate list holds a supplier whose cost
computation succeeds (the $2.00 per 1000 g one), yet because a later
supplier's computation fails the selection propagates that error instead of
returning the minimum-cost supplier. -/
theorem findCheapestSupplier_mixed_counterexample :
    findCheapestSupplier cuGrams ⟨"Ing"⟩ [⟨[supplier1000, supplierCount], []⟩] =
      .error (.conversion (.unsupported .count .whole .mass .grams)) ∧
    (getNormalizedCost cuGrams supplier1000).isOk = true :=
  ⟨rfl, rfl⟩

/-- C6 (amended): for a candidate list containing at least one supplier and
in which every supplier's cost computation succeeds, the selection returns
the entry with the minimum normalized cost over the flattened iteration
order (products in list order, suppliers within a product in list order),
and every entry strictly before the selected one costs strictly more, so an
exact tie keeps the first encountered. -/
theorem findCheapestSupplier_min_first (cu : ConvertPrim) (ingredient : Ingredient)
    (prods : List Product)
    (hne : supplierEntries prods ≠ [])
    (hok : ∀ e ∈ supplierEntries prods, (getNormalizedCost cu e.2).isOk = true) :
    ∃ (t : Selection) (i : ℕ), findCheapestSupplier cu ingredient prods = .ok t ∧
      (supplierEntries prods)[i]? = some (t.product, t.supplier) ∧
      getNormalizedCost cu t.supplier = .ok t.cost ∧
      (∀ e ∈ supplierEntries prods, ∀ c, getNormalizedCost cu e.2 = .ok c → t.cost ≤ c) ∧
      (∀ (j : ℕ) (e : Product × SupplierProduct), j < i →
        (supplierEntries prods)[j]? = some e →
        ∀ c, getNormalizedCost cu e.2 = .ok c → t.cost < c) := by
  unfold findCheapestSupplier
  rw [foldlM_supplier_flatten, supplierFold_allOk cu _ none hok]
  cases hl : supplierEntries prods with
  | nil => exact absurd hl hne
  | cons a rest =>
    rw [hl] at hok
    rw [List.foldl_cons]
    rw [show selectStep cu none a = some ⟨costValue cu a.2, a.1, a.2⟩ from rfl]
    obtain ⟨t, hfold, hcase⟩ := selectStep_foldl_some cu rest ⟨costValue cu a.2, a.1, a.2⟩
    rw [hfold]
    rcases hcase with ⟨rfl, hmin⟩ | ⟨i, e, hi, hte, hlt', hmin, hearlier⟩
    · refine ⟨_, 0, rfl, by simp, getNormalizedCost_isOk cu a.2 (hok a (by simp)), ?_, ?_⟩
      · intro e' he' c hc
        rcases List.mem_cons.mp he' with rfl | he'
        · rw [costValue_eq_of_ok cu e'.2 c hc]
        · rw [← costValue_eq_of_ok cu e'.2 c hc]
          exact hmin e' he'
      · intro j e' hj _
        exact absurd hj (Nat.not_lt_zero j)
    · subst hte
      refine ⟨_, i + 1, rfl, by rw [List.getElem?_cons_succ]; exact hi, ?_, ?_, ?_⟩
      · exact getNormalizedCost_isOk cu e.2
          (hok e (List.mem_cons_of_mem a (List.getElem?_mem hi)))
      · intro e' he' c hc
        rw [← costValue_eq_of_ok cu e'.2 c hc]
        rcases List.mem_cons.mp he' with rfl | he'
        · exact le_of_lt hlt'
        · exact hmin e' he'
      · intro j e' hj hj' c hc
        rw [← costValue_eq_of_ok cu e'.2 c hc]
        cases j with
        | zero =>
          have : e' = a := by simpa using hj'.symm
          subst this
          exact hlt'
        | succ j' =>
          exact hearlier j' e' (Nat.lt_of_succ_lt_succ hj) (by simpa using hj')

/-- Witness for C6 (amended): three suppliers with normalized costs 3/1000,
2/1000 and 2/1000; the hypotheses hold and the theorem yields the selected
entry, the middle supplier being the first to attain the minimum. -/
theorem findCheapestSupplier_min_first_witness :
    supplierEntries [productTie] ≠ [] ∧
    (∀ e ∈ supplierEntries [productTie], (getNormalizedCost cuGrams e.2).isOk = true) ∧
    ∃ (t : Selection) (i : ℕ), findCheapestSupplier cuGrams ⟨"T"⟩ [productTie] = .ok t ∧
      (supplierEntries [productTie])[i]? = some (t.product, t.supplier) ∧
      getNormalizedCost cuGrams t.supplier = .ok t.cost ∧
      (∀ e ∈ supplierEntries [productTie], ∀ c,
        getNormalizedCost cuGrams e.2 = .ok c → t.cost ≤ c) ∧
      (∀ (j : ℕ) (e : Product × SupplierProduct), j < i →
        (supplierEntries [productTie])[j]? = some e →
        ∀ c, getNormalizedCost cuGrams e.2 = .ok c → t.cost < c) :=
  ⟨by decide, by decide,
   findCheapestSupplier_min_first cuGrams ⟨"T"⟩ [productTie] (by decide) (by decide)⟩

/-- When a key is absent from the front map, lookup continues in the tail. -/
theorem lookup_append_of_none (m l : NutrientMap) (name : String)
    (h : lookupNutrient m name = none) :
    lookupNutrient (m ++ l) name = lookupNutrient l name := by
  induction m with
  | nil => rfl
  | cons a rest ih =>
    obtain ⟨k, v⟩ := a
    by_cases hk : k = name
    · simp [lookupNutrient, hk] at h
    · simp only [List.cons_append, lookupNutrient, if_neg hk] at h ⊢
      exact ih h

/-- The in-place addition bumps the looked-up entry's amount. -/
theorem lookup_addToNutrient_self (m : NutrientMap) (name : String) (d : ℚ) :
    lookupNutrient (addToNutrient m name d) name =
      (lookupNutrient m name).map
        (fun v => { v with quantityAmount :=
          { v.quantityAmount with uomAmount := v.quantityAmount.uomAmount + d } }) := by
  induction m with
  | nil => rfl
  | cons a rest ih =>
    obtain ⟨k, v⟩ := a
    by_cases hk : k = name
    · simp [addToNutrient, lookupNutrient, hk]
    · simp [addToNutrient, lookupNutrient, hk, ih]

/-- The zero-initialize-then-add step of the fact loop raises the stored
amount by exactly the added value. -/
theorem nutrientAmount_update (m : NutrientMap) (bf : NutrientFact) (d : ℚ) :
    nutrientAmount
      (addToNutrient
        (if (lookupNutrient m bf.nutrientName).isSome then m
         else m ++ [(bf.nutrientName, zeroEntry bf)]) bf.nutrientName d)
      bf.nutrientName = nutrientAmount m bf.nutrientName + d := by
  by_cases h : (lookupNutrient m bf.nutrientName).isSome
  · rw [if_pos h]
    obtain ⟨v, hv⟩ := Option.isSome_iff_exists.mp h
    simp [nutrientAmount, lookup_addToNutrient_self, hv]
  · rw [if_neg h]
    have hn : lookupNutrient m bf.nutrientName = none := Option.not_isSome_iff_eq_none.mp h
    simp [nutrientAmount, lookup_addToNutrient_self, lookup_append_of_none m _ _ hn, hn,
      lookupNutrient, zeroEntry]

/-- C5: per line item, after converting the required quantity to grams, the
fact loop adds (totalNutrientForIngredient / normalizedMassGrams) *
quantityPer.amount to the entry of each base-normalized fact, where
totalNutrientForIngredient = (quantityAmount.amount / quantityPer.amount) *
(requiredUoM converted into the fact's quantityPer unit); the line item's
returned cost contribution is normalizedMassGrams * selectedSupplier.cost. -/
theorem calculateNutrientContribution_spec (cu : ConvertPrim) (toBase : BaseUnitsPrim)
    (requiredUoM : UnitOfMeasure) (sel : Selection) (m : NutrientMap) (g : UnitOfMeasure)
    (hg : convertUnitsWithFallback cu requiredUoM .grams .mass = .ok g) :
    (∀ m', sel.product.nutrientFacts.foldlM
        (processFact cu toBase requiredUoM g.uomAmount) m = .ok m' →
      calculateNutrientContribution cu toBase requiredUoM sel m =
        .ok (m', g.uomAmount * sel.cost)) ∧
    (∀ fact m₀ u,
      convertUnitsWithFallback cu requiredUoM (toBase fact).quantityPer.uomName
        (toBase fact).quantityPer.uomType = .ok u →
      ∃ m₁, processFact cu toBase requiredUoM g.uomAmount m₀ fact = .ok m₁ ∧
        nutrientAmount m₁ (toBase fact).nutrientName =
          nutrientAmount m₀ (toBase fact).nutrientName +
            (toBase fact).quantityAmount.uomAmount / (toBase fact).quantityPer.uomAmount *
              u.uomAmount / g.uomAmount * (toBase fact).quantityPer.uomAmount) := by
  constructor
  · intro m' hm'
    unfold calculateNutrientContribution
    simp only [hg]
    rw [hm']
    rfl
  · intro fact m₀ u hu
    have hpf : processFact cu toBase requiredUoM g.uomAmount m₀ fact =
        .ok (addToNutrient
          (if (lookupNutrient m₀ (toBase fact).nutrientName).isSome then m₀
           else m₀ ++ [((toBase fact).nutrientName, zeroEntry (toBase fact))])
          (toBase fact).nutrientName
          ((toBase fact).quantityAmount.uomAmount / (toBase fact).quantityPer.uomAmount *
            u.uomAmount / g.uomAmount * (toBase fact).quantityPer.uomAmount)) := by
      simp only [processFact]
      rw [hu]
    rw [hpf]
    exact ⟨_, rfl, nutrientAmount_update m₀ (toBase fact) _⟩

/-- Witness for C5: the end-to-end line item (500 g, $2.00 per 1000 g
supplier, 10 g protein per 100 g) yields the map entry 0 + 10/100*500/500*100
and the cost contribution 500 * (1/500). -/
theorem calculateNutrientContribution_spec_witness :
    calculateNutrientContribution cuGrams id ⟨500, .grams, .mass⟩
        ⟨1/500, productE2E, supplier1000⟩ [] =
      .ok ([("Protein", proteinOut)], 500 * (1/500)) ∧
    ∃ m₁, processFact cuGrams id ⟨500, .grams, .mass⟩ 500 [] factProtein = .ok m₁ ∧
      nutrientAmount m₁ "Protein" =
        nutrientAmount ([] : NutrientMap) "Protein" + 10 / 100 * 500 / 500 * 100 :=
  ⟨(calculateNutrientContribution_spec cuGrams id ⟨500, .grams, .mass⟩
      ⟨1/500, productE2E, supplier1000⟩ [] ⟨500, .grams, .mass⟩ rfl).1
      [("Protein", proteinOut)]
      (by simp [List.foldlM_cons, processFact, lookupNutrient, addToNutrient, zeroEntry,
            convertUnitsWithFallback, cuGrams, factProtein, productE2E, proteinOut,
            Bind.bind, Except.bind, Pure.pure, Except.pure]),
   (calculateNutrientContribution_spec cuGrams id ⟨500, .grams, .mass⟩
      ⟨1/500, productE2E, supplier1000⟩ [] ⟨500, .grams, .mass⟩ rfl).2
      factProtein [] ⟨500, .grams, .mass⟩ rfl⟩

/-- A key is absent from the lookup exactly when it is not a key. -/
theorem lookup_eq_none_iff (m : NutrientMap) (name : String) :
    lookupNutrient m name = none ↔ name ∉ nutrientKeys m := by
  induction m with
  | nil => simp [lookupNutrient, nutrientKeys]
  | cons a rest ih =>
    obtain ⟨k, v⟩ := a
    by_cases hk : k = name
    · simp [lookupNutrient, nutrientKeys, hk]
    · simp [lookupNutrient, nutrientKeys, hk, ih, Ne.symm hk]

/-- Every key of the map has a successful lookup. -/
theorem lookup_isSome_of_mem_keys (m : NutrientMap) (k : String)
    (h : k ∈ nutrientKeys m) : (lookupNutrient m k).isSome = true := by
  cases hl : lookupNutrient m k with
  | some v => rfl
  | none => exact absurd h ((lookup_eq_none_iff m k).mp hl)

/-- A successful lookup returns an entry of the map. -/
theorem lookup_mem (m : NutrientMap) (k : String) (v : NutrientFact)
    (h : lookupNutrient m k = some v) : (k, v) ∈ m := by
  induction m with
  | nil => cases h
  | cons a rest ih =>
    obtain ⟨k', v'⟩ := a
    by_cases hk : k' = k
    · subst hk
      simp [lookupNutrient] at h
      simp [h]
    · simp only [lookupNutrient, if_neg hk] at h
      exact List.mem_cons_of_mem _ (ih h)

/-- With pairwise distinct keys, every entry is found by lookup. -/
theorem lookup_of_mem_nodup (m : NutrientMap) (hnd : (nutrientKeys m).Nodup)
    (k : String) (v : NutrientFact) (h : (k, v) ∈ m) :
    lookupNutrient m k = some v := by
  induction m with
  | nil => cases h
  | cons a rest ih =>
    obtain ⟨k', v'⟩ := a
    simp only [nutrientKeys, List.map_cons, List.nodup_cons] at hnd
    rcases List.mem_cons.mp h with heq | hmem
    · cases heq
      simp [lookupNutrient]
    · have hk : k' ≠ k := by
        intro hk
        subst hk
        exact hnd.1 (List.mem_map.mpr ⟨(k', v), hmem, rfl⟩)
      simp only [lookupNutrient, if_neg hk]
      exact ih hnd.2 hmem

/-- The in-place addition does not change the key sequence. -/
theorem keys_addToNutrient (m : NutrientMap) (name : String) (d : ℚ) :
    nutrientKeys (addToNutrient m name d) = nutrientKeys m := by
  induction m with
  | nil => rfl
  | cons a rest ih =>
    obtain ⟨k, v⟩ := a
    by_cases hk : k = name
    · simp [addToNutrient, nutrientKeys, hk]
    · simp only [addToNutrient, if_neg hk]
      simp [nutrientKeys] at ih ⊢
      exact ih

/-- The fact loop body preserves distinctness of the keys. -/
theorem processFact_nodup (cu : ConvertPrim) (toBase : BaseUnitsPrim)
    (requiredUoM : UnitOfMeasure) (na : ℚ) (m : NutrientMap) (fact : NutrientFact)
    (m₁ : NutrientMap) (h : processFact cu toBase requiredUoM na m fact = .ok m₁)
    (hnd : (nutrientKeys m).Nodup) : (nutrientKeys m₁).Nodup := by
  simp only [processFact] at h
  cases hc : convertUnitsWithFallback cu requiredUoM (toBase fact).quantityPer.uomName
      (toBase fact).quantityPer.uomType with
  | error e => rw [hc] at h; cases h
  | ok u =>
    rw [hc] at h
    cases h
    rw [keys_addToNutrient]
    by_cases hl : (lookupNutrient m (toBase fact).nutrientName).isSome
    · rw [if_pos hl]
      exact hnd
    · rw [if_neg hl]
      have hn : (toBase fact).nutrientName ∉ nutrientKeys m :=
        (lookup_eq_none_iff m _).mp (Option.not_isSome_iff_eq_none.mp hl)
      simp [nutrientKeys, List.nodup_append] at hnd ⊢
      exact ⟨hnd, fun x hx =>
        hn (List.mem_map.mpr ⟨((toBase fact).nutrientName, x), hx, rfl⟩)⟩

/-- The whole fact loop preserves distinctness of the keys. -/
theorem factsFold_nodup (cu : ConvertPrim) (toBase : BaseUnitsPrim)
    (requiredUoM : UnitOfMeasure) (na : ℚ) (facts : List NutrientFact)
    (m m₁ : NutrientMap)
    (h : facts.foldlM (processFact cu toBase requiredUoM na) m = .ok m₁)
    (hnd : (nutrientKeys m).Nodup) : (nutrientKeys m₁).Nodup := by
  induction facts generalizing m with
  | nil => cases h; exact hnd
  | cons f rest ih =>
    rw [List.foldlM_cons] at h
    cases hf : processFact cu toBase requiredUoM na m f with
    | error e => rw [hf] at h; cases h
    | ok m' =>
      rw [hf] at h
      exact ih m' h (processFact_nodup cu toBase requiredUoM na m f m' hf hnd)

/-- The line-item accumulation preserves distinctness of the keys. -/
theorem calculateNutrientContribution_nodup (cu : ConvertPrim) (toBase : BaseUnitsPrim)
    (requiredUoM : UnitOfMeasure) (sel : Selection) (m m' : NutrientMap) (c : ℚ)
    (h : calculateNutrientContribution cu toBase requiredUoM sel m = .ok (m', c))
    (hnd : (nutrientKeys m).Nodup) : (nutrientKeys m').Nodup := by
  unfold calculateNutrientContribution at h
  cases hg : convertUnitsWithFallback cu requiredUoM .grams .mass with
  | error e => rw [hg] at h; cases h
  | ok u =>
    rw [hg] at h
    simp only [Except.map] at h
    cases hf : sel.product.nutrientFacts.foldlM
        (processFact cu toBase requiredUoM u.uomAmount) m with
    | error e => rw [hf] at h; cases h
    | ok m'' =>
      rw [hf] at h
      cases h
      exact factsFold_nodup cu toBase requiredUoM u.uomAmount _ m m' hf hnd

/-- One line item preserves distinctness of the keys. -/
theorem processLineItem_nodup (cu : ConvertPrim) (toBase : BaseUnitsPrim) (fetch : FetchPrim)
    (state : ℚ × NutrientMap) (li : LineItem) (st : ℚ × NutrientMap)
    (h : processLineItem cu toBase fetch state li = .ok st)
    (hnd : (nutrientKeys state.2).Nodup) : (nutrientKeys st.2).Nodup := by
  simp only [processLineItem, Bind.bind, Except.bind] at h
  cases hs : findCheapestSupplier cu li.ingredient (fetch li.ingredient) with
  | error e => simp only [hs] at h; cases h
  | ok sel =>
    simp only [hs] at h
    cases hc : calculateNutrientContribution cu toBase li.unitOfMeasure sel state.2 with
    | error e => simp only [hc] at h; cases h
    | ok p =>
      obtain ⟨m', cost⟩ := p
      simp only [hc] at h
      cases h
      exact calculateNutrientContribution_nodup cu toBase li.unitOfMeasure sel
        state.2 m' cost hc hnd

/-- The line-item loop preserves distinctness of the keys. -/
theorem lineItemsFold_nodup (cu : ConvertPrim) (toBase : BaseUnitsPrim) (fetch : FetchPrim)
    (items : List LineItem) (state : ℚ × NutrientMap) (tc : ℚ) (acc : NutrientMap)
    (h : items.foldlM (processLineItem cu toBase fetch) state = .ok (tc, acc))
    (hnd : (nutrientKeys state.2).Nodup) : (nutrientKeys acc).Nodup := by
  induction items generalizing state with
  | nil => cases h; exact hnd
  | cons li rest ih =>
    rw [List.foldlM_cons] at h
    cases hli : processLineItem cu toBase fetch state li with
    | error e => rw [hli] at h; cases h
    | ok st =>
      rw [hli] at h
      exact ih st h (processLineItem_nodup cu toBase fetch state li st hli hnd)

/-- Re-inserting every key of a list whose lookups all succeed keeps
exactly that key list. -/
theorem keys_filterMap_lookup (m : NutrientMap) (l : List String)
    (h : ∀ k ∈ l, (lookupNutrient m k).isSome = true) :
    ((l.filterMap (fun k => (lookupNutrient m k).map (fun v => (k, v)))).map Prod.fst) = l := by
  induction l with
  | nil => rfl
  | cons k rest ih =>
    have hk := h k (by simp)
    obtain ⟨v, hv⟩ := Option.isSome_iff_exists.mp hk
    simp only [List.filterMap_cons, hv, Option.map_some']
    simp only [List.map_cons]
    rw [ih (fun k' hk' => h k' (by simp [hk']))]

/-- The sorted map's key sequence is the insertion sort of the original
key sequence. -/
theorem keys_sortNutrients (m : NutrientMap) :
    nutrientKeys (sortNutrientsAlphabetically m) =
      (nutrientKeys m).insertionSort (· ≤ ·) := by
  unfold sortNutrientsAlphabetically
  rw [show nutrientKeys m = m.map Prod.fst from rfl]
  exact keys_filterMap_lookup m _
    (fun k hk => lookup_isSome_of_mem_keys m k ((List.mem_insertionSort _).mp hk))

/-- Under distinct keys, sorting preserves the entry set. -/
theorem mem_sortNutrients_iff (m : NutrientMap) (hnd : (nutrientKeys m).Nodup)
    (k : String) (v : NutrientFact) :
    (k, v) ∈ sortNutrientsAlphabetically m ↔ (k, v) ∈ m := by
  unfold sortNutrientsAlphabetically
  rw [List.mem_filterMap]
  constructor
  · rintro ⟨k', _, hf⟩
    cases hl : lookupNutrient m k' with
    | none => rw [hl] at hf; cases hf
    | some v' =>
      rw [hl] at hf
      obtain ⟨rfl, rfl⟩ : k' = k ∧ v' = v := by simpa using hf
      exact lookup_mem m _ _ hl
  · intro hm
    refine ⟨k, ?_, ?_⟩
    · rw [List.mem_insertionSort]
      exact List.mem_map.mpr ⟨(k, v), hm, rfl⟩
    · rw [lookup_of_mem_nodup m hnd k v hm]
      rfl

/-- C8: for every recipe summarized successfully, the emitted nutrient
mapping is the accumulated mapping re-inserted in ascending alphabetical
key order: its keys iterate sorted, and it holds exactly the accumulated
entries. -/
theorem processRecipe_sorted_nutrients (cu : ConvertPrim) (toBase : BaseUnitsPrim)
    (fetch : FetchPrim) (recipe : Recipe) (s : RecipeSummary)
    (h : processRecipe cu toBase fetch recipe = .ok s) :
    List.Sorted (· ≤ ·) (nutrientKeys s.nutrientsAtCheapestCost) ∧
    ∃ totalCost acc,
      recipe.lineItems.foldlM (processLineItem cu toBase fetch) (0, ([] : NutrientMap)) =
        .ok (totalCost, acc) ∧
      s = ⟨totalCost, sortNutrientsAlphabetically acc⟩ ∧
      (∀ k v, (k, v) ∈ s.nutrientsAtCheapestCost ↔ (k, v) ∈ acc) := by
  unfold processRecipe at h
  cases hfold : recipe.lineItems.foldlM (processLineItem cu toBase fetch)
      (0, ([] : NutrientMap)) with
  | error e => rw [hfold] at h; cases h
  | ok p =>
    obtain ⟨tc, acc⟩ := p
    rw [hfold] at h
    cases h
    have hnd : (nutrientKeys acc).Nodup :=
      lineItemsFold_nodup cu toBase fetch recipe.lineItems (0, []) tc acc hfold (by simp [nutrientKeys])
    refine ⟨?_, tc, acc, rfl, rfl, fun k v => mem_sortNutrients_iff acc hnd k v⟩
    rw [show (⟨tc, sortNutrientsAlphabetically acc⟩ : RecipeSummary).nutrientsAtCheapestCost =
      sortNutrientsAlphabetically acc from rfl]
    rw [keys_sortNutrients]
    exact List.sorted_insertionSort _ _

/-- Witness for C8: facts arriving as Zinc, Protein, Iron are emitted with
keys iterating as Iron, Protein, Zinc, holding the accumulated entries. -/
theorem processRecipe_sorted_nutrients_witness :
    List.Sorted (· ≤ ·) (nutrientKeys summaryZPI.nutrientsAtCheapestCost) ∧
    ∃ totalCost acc,
      recipeZPI.lineItems.foldlM (processLineItem cuGrams id fetchZPI)
          (0, ([] : NutrientMap)) =
        .ok (totalCost, acc) ∧
      summaryZPI = ⟨totalCost, sortNutrientsAlphabetically acc⟩ ∧
      (∀ k v, (k, v) ∈ summaryZPI.nutrientsAtCheapestCost ↔ (k, v) ∈ acc) :=
  processRecipe_sorted_nutrients cuGrams id fetchZPI recipeZPI summaryZPI (by
    simp [processRecipe, processLineItem, findCheapestSupplier, considerSupplier,
      getNormalizedCost, convertUnitsWithFallback, calculateNutrientContribution,
      processFact, sortNutrientsAlphabetically, lookupNutrient, addToNutrient, zeroEntry,
      nutrientKeys, cuGrams, fetchZPI, recipeZPI, productZPI, supplier1000,
      factZinc, factProtein, factIron, summaryZPI, proteinOut,
      List.foldlM, Except.map, Except.bind, Bind.bind, Pure.pure, Except.pure,
      List.insertionSort, List.orderedInsert, List.filterMap]
    norm_num)

/-- Mapping over a success applies the function. -/
theorem exceptMap_ok {ε α β : Type} (f : α → β) (a : α) :
    Except.map f (Except.ok a : Except ε α) = .ok (f a) := rfl

/-- Mapping over a failure keeps the failure. -/
theorem exceptMap_error {ε α β : Type} (f : α → β) (e : ε) :
    Except.map f (Except.error e : Except ε α) = .error e := rfl

/-- Binding a success applies the continuation. -/
theorem exceptBind_ok {ε α β : Type} (a : α) (f : α → Except ε β) :
    (Except.ok a : Except ε α) >>= f = f a := rfl

/-- Binding a failure keeps the failure. -/
theorem exceptBind_error {ε α β : Type} (e : ε) (f : α → Except ε β) :
    (Except.error e : Except ε α) >>= f = .error e := rfl

/-- Binding a success applies the continuation (method form). -/
theorem exceptBindM_ok {ε α β : Type} (a : α) (f : α → Except ε β) :
    (Except.ok a : Except ε α).bind f = f a := rfl

/-- Binding a failure keeps the failure (method form). -/
theorem exceptBindM_error {ε α β : Type} (e : ε) (f : α → Except ε β) :
    (Except.error e : Except ε α).bind f = .error e := rfl

/-- A success is ok. -/
theorem exceptIsOk_ok {ε α : Type} (a : α) :
    (Except.ok a : Except ε α).isOk = true := rfl

/-- A failure is not ok. -/
theorem exceptIsOk_error {ε α : Type} (e : ε) :
    (Except.error e : Except ε α).isOk = false := rfl

/-- Shifting the accumulator of the recipe fold only prepends it to the
output: each recipe's entry is independent of what was accumulated. -/
theorem summaryFold_shift (cu : ConvertPrim) (toBase : BaseUnitsPrim) (fetch : FetchPrim)
    (recipes : List Recipe) (init : List (String × RecipeSummary)) :
    recipes.foldlM (summaryStep cu toBase fetch) init =
    (recipes.foldlM (summaryStep cu toBase fetch) []).map (fun l => init ++ l) := by
  induction recipes generalizing init with
  | nil => simp [List.foldlM_nil, Pure.pure, Except.pure, exceptMap_ok]
  | cons r rest ih =>
    rw [List.foldlM_cons, List.foldlM_cons]
    cases hpr : processRecipe cu toBase fetch r with
    | error e =>
      simp only [summaryStep, hpr, exceptMap_error, exceptBind_error]
    | ok s =>
      simp only [summaryStep, hpr, exceptMap_ok, exceptBind_ok, List.nil_append]
      rw [ih (init ++ [(r.recipeName, s)]), ih [(r.recipeName, s)]]
      cases rest.foldlM (summaryStep cu toBase fetch) [] with
      | error e => simp only [exceptMap_error]
      | ok l => simp only [exceptMap_ok, List.append_assoc]

/-- The cons unfolding of the recipe loop. -/
theorem calculateRecipeSummary_cons (cu : ConvertPrim) (toBase : BaseUnitsPrim)
    (fetch : FetchPrim) (r : Recipe) (rest : List Recipe) :
    calculateRecipeSummary cu toBase fetch (r :: rest) =
      (processRecipe cu toBase fetch r).bind
        (fun s => (calculateRecipeSummary cu toBase fetch rest).map
          (fun l => (r.recipeName, s) :: l)) := by
  unfold calculateRecipeSummary
  rw [List.foldlM_cons]
  cases hpr : processRecipe cu toBase fetch r with
  | error e =>
    simp only [summaryStep, hpr, exceptMap_error, exceptBind_error, exceptBindM_error]
  | ok s =>
    simp only [summaryStep, hpr, exceptMap_ok, exceptBind_ok, exceptBindM_ok,
      List.nil_append]
    rw [summaryFold_shift]
    cases rest.foldlM (summaryStep cu toBase fetch) [] with
    | error e => simp only [exceptMap_error]
    | ok l => simp only [exceptMap_ok, List.singleton_append]

/-- C9: recipes are processed independently.  Summarizing succeeds exactly
when every recipe processes successfully; on success entry i of the output
is determined by recipe i alone; on failure the whole call returns only the
error of a failing recipe, with no partial mapping for any recipe. -/
theorem calculateRecipeSummary_independent (cu : ConvertPrim) (toBase : BaseUnitsPrim)
    (fetch : FetchPrim) (recipes : List Recipe) :
    ((calculateRecipeSummary cu toBase fetch recipes).isOk = true ↔
      ∀ r ∈ recipes, (processRecipe cu toBase fetch r).isOk = true) ∧
    (∀ l, calculateRecipeSummary cu toBase fetch recipes = .ok l →
      l.length = recipes.length ∧
      ∀ i : ℕ, l[i]? = (recipes[i]?).bind
        (fun r => (processRecipe cu toBase fetch r).toOption.map
          (fun s => (r.recipeName, s)))) ∧
    (∀ e, calculateRecipeSummary cu toBase fetch recipes = .error e →
      ∃ r ∈ recipes, processRecipe cu toBase fetch r = .error e) := by
  induction recipes with
  | nil =>
    refine ⟨by simp [calculateRecipeSummary, Pure.pure, Except.pure, exceptIsOk_ok], ?_, ?_⟩
    · intro l h
      cases h
      simp
    · intro e h
      cases h
  | cons r rest ih =>
    obtain ⟨ih1, ih2, ih3⟩ := ih
    rw [calculateRecipeSummary_cons]
    cases hpr : processRecipe cu toBase fetch r with
    | error e =>
      rw [exceptBindM_error]
      refine ⟨?_, ?_, ?_⟩
      · constructor
        · intro h
          rw [exceptIsOk_error] at h
          cases h
        · intro hall
          have hh := hall r (by simp)
          rw [hpr, exceptIsOk_error] at hh
          cases hh
      · intro l h
        cases h
      · intro e' h
        cases h
        exact ⟨r, by simp, hpr⟩
    | ok s =>
      rw [exceptBindM_ok]
      cases hrest : calculateRecipeSummary cu toBase fetch rest with
      | error e =>
        rw [exceptMap_error]
        refine ⟨?_, ?_, ?_⟩
        · constructor
          · intro h
            rw [exceptIsOk_error] at h
            cases h
          · intro hall
            have hok : (calculateRecipeSummary cu toBase fetch rest).isOk = true :=
              ih1.mpr (fun r' hr' => hall r' (by simp [hr']))
            rw [hrest, exceptIsOk_error] at hok
            cases hok
        · intro l h
          cases h
        · intro e' h
          cases h
          obtain ⟨r', hr', hpr'⟩ := ih3 e hrest
          exact ⟨r', by simp [hr'], hpr'⟩
      | ok l' =>
        rw [exceptMap_ok]
        refine ⟨?_, ?_, ?_⟩
        · constructor
          · intro _ r' hr'
            rcases List.mem_cons.mp hr' with rfl | hr'
            · rw [hpr, exceptIsOk_ok]
            · exact ih1.mp (by rw [hrest, exceptIsOk_ok]) r' hr'
          · intro _
            rw [exceptIsOk_ok]
        · intro l h
          cases h
          obtain ⟨hlen, hidx⟩ := ih2 l' hrest
          constructor
          · simp [hlen]
          · intro i
            cases i with
            | zero => simp [hpr, Except.toOption]
            | succ i' => simpa using hidx i'
        · intro e h
          cases h

/-- Witness for C9: the end-to-end run's output entry is exactly the one
computed from its recipe alone, and the lengths match. -/
theorem calculateRecipeSummary_independent_witness :
    ([("R", summaryE2E)] : List (String × RecipeSummary)).length = [recipeE2E].length ∧
    ∀ i : ℕ, ([("R", summaryE2E)] : List (String × RecipeSummary))[i]? =
      ([recipeE2E][i]?).bind
        (fun r => (processRecipe cuGrams id fetchE2E r).toOption.map
          (fun s => (r.recipeName, s))) :=
  (calculateRecipeSummary_independent cuGrams id fetchE2E [recipeE2E]).2.1
    [("R", summaryE2E)] (by
      simp [calculateRecipeSummary, summaryStep, processRecipe, processLineItem,
        findCheapestSupplier, considerSupplier, getNormalizedCost, convertUnitsWithFallback,
        calculateNutrientContribution, processFact, sortNutrientsAlphabetically,
        lookupNutrient, addToNutrient, zeroEntry, cuGrams, fetchE2E, recipeE2E, productE2E,
        supplier1000, factProtein, summaryE2E, proteinOut, List.foldlM, Except.map,
        Except.bind, Bind.bind, Pure.pure, Except.pure, List.insertionSort,
        List.orderedInsert, List.filterMap]
      norm_num)

/-- C10: an empty recipe list summarizes to the empty mapping, and a recipe
with no line items summarizes to cost 0 and an empty nutrient mapping. -/
theorem calculateRecipeSummary_empty_cases (cu : ConvertPrim) (toBase : BaseUnitsPrim)
    (fetch : FetchPrim) (name : String) :
    calculateRecipeSummary cu toBase fetch [] = .ok [] ∧
    calculateRecipeSummary cu toBase fetch [⟨name, []⟩] = .ok [(name, ⟨0, []⟩)] :=
  ⟨rfl, rfl⟩

/-- Witness for C10: the empty cases at a concrete table and name. -/
theorem calculateRecipeSummary_empty_cases_witness :
    calculateRecipeSummary cuGrams id fetchE2E [] = .ok [] ∧
    calculateRecipeSummary cuGrams id fetchE2E [⟨"E", []⟩] = .ok [("E", ⟨0, []⟩)] :=
  calculateRecipeSummary_empty_cases cuGrams id fetchE2E "E"

/-- The end-to-end scenario evaluated on the code: $2.00 per 1000 g, 500 g
required, 10 g protein per 100 g, identity gram conversions. -/
theorem endToEnd_run :
    calculateRecipeSummary cuGrams id fetchE2E [recipeE2E] = .ok [("R", summaryE2E)] := by
  simp [calculateRecipeSummary, summaryStep, processRecipe, processLineItem,
    findCheapestSupplier, considerSupplier, getNormalizedCost, convertUnitsWithFallback,
    calculateNutrientContribution, processFact, sortNutrientsAlphabetically,
    lookupNutrient, addToNutrient, zeroEntry, cuGrams, fetchE2E, recipeE2E, productE2E,
    supplier1000, factProtein, summaryE2E, proteinOut, List.foldlM, Except.map,
    Except.bind, Bind.bind, Pure.pure, Except.pure, List.insertionSort,
    List.orderedInsert, List.filterMap]
  norm_num

/-- Counterexample for C1: on the end-to-end scenario the code emits a
Protein amount of 10, not the claimed 50: the normalization step rescales
the 50 g yield to the 100 g basis of the 500 g line item. -/
theorem endToEnd_counterexample :
    calculateRecipeSummary cuGrams id fetchE2E [recipeE2E] = .ok [("R", summaryE2E)] ∧
    nutrientAmount summaryE2E.nutrientsAtCheapestCost "Protein" = 10 ∧
    ¬ nutrientAmount summaryE2E.nutrientsAtCheapestCost "Protein" = 50 := by
  refine ⟨?_, by simp [summaryE2E, proteinOut, nutrientAmount, lookupNutrient],
    by simp [summaryE2E, proteinOut, nutrientAmount, lookupNutrient]⟩
  simp [calculateRecipeSummary, summaryStep, processRecipe, processLineItem,
    findCheapestSupplier, considerSupplier, getNormalizedCost, convertUnitsWithFallback,
    calculateNutrientContribution, processFact, sortNutrientsAlphabetically,
    lookupNutrient, addToNutrient, zeroEntry, cuGrams, fetchE2E, recipeE2E, productE2E,
    supplier1000, factProtein, summaryE2E, proteinOut, List.foldlM, Except.map,
    Except.bind, Bind.bind, Pure.pure, Except.pure, List.insertionSort,
    List.orderedInsert, List.filterMap]
  norm_num

/-- C1 (amended): the end-to-end scenario returns cheapestCost = 1.00 and a
sole Protein entry whose quantityAmount.amount is 10 (not 50) with
quantityPer amount 100 g. -/
theorem endToEnd_amended :
    calculateRecipeSummary cuGrams id fetchE2E [recipeE2E] = .ok [("R", summaryE2E)] ∧
    summaryE2E.cheapestCost = 1 ∧
    summaryE2E.nutrientsAtCheapestCost = [("Protein", proteinOut)] ∧
    proteinOut.quantityAmount = ⟨10, .grams, .mass⟩ ∧
    proteinOut.quantityPer = ⟨100, .grams, .mass⟩ :=
  ⟨endToEnd_run, rfl, rfl, rfl, rfl⟩

end Main
